import Mathlib

/-!
A shallow embedding of the `diffmig` registry-migration diff tool
(sources: `src/clinical_data.rs`, `src/diff.rs`, `src/registry_data.rs`).

Modelling conventions:
* Rust `HashMap<K, V>` becomes an association list `List (K × V)`; the real
  map never holds two bindings of one key, which appears here as a
  `Nodup` hypothesis on the key column where a proof needs it.
  `HashMap::insert` becomes `insertA` (replace the binding in place, or
  append a fresh one), `HashMap::get` becomes `lookupA` (first binding).
* Rust `HashSet<String>` becomes `Finset String` (equality is set equality,
  as for the Rust type).
* Rust `f64` becomes `ℚ`: the diff engine only subtracts, takes absolute
  values and compares against `0.01`, which we interpret exactly.
* Rust `u32` ids become `Nat`; the code never does arithmetic on them,
  only equality tests, except the `as u32` cast which becomes `% 2 ^ 32`.
* `serde_json::Value` becomes `JValue`; its `Number` keeps serde's three
  storage classes (unsigned integer / negative integer / float), because
  `Number::as_u64` succeeds only on the unsigned-integer class.
* Fallible Rust code (`Result<_, Box<dyn Error>>`) becomes
  `Except String _`; a `panic!`/`unwrap` failure becomes an
  `Except.error` whose message starts with `panic`.
-/

namespace Diffmig

/-! ## Association-list primitives standing in for `HashMap` -/

/-- `HashMap::get`: the value of the first binding of key `k`, if any. -/
def lookupA {κ α : Type} [DecidableEq κ] (k : κ) : List (κ × α) → Option α
  | [] => none
  | (k', v) :: rest => if k = k' then some v else lookupA k rest

/-- `HashMap::insert`: replace the binding of `k` in place, or append one. -/
def insertA {κ α : Type} [DecidableEq κ] (k : κ) (v : α) : List (κ × α) → List (κ × α)
  | [] => [(k, v)]
  | (k', v') :: rest => if k = k' then (k, v) :: rest else (k', v') :: insertA k v rest

/-- The key column of an association list. -/
def keysA {κ α : Type} (m : List (κ × α)) : List κ := m.map Prod.fst

/-- `collect::<HashMap<_, _>>()` on a list of key-value pairs: left-to-right
insertion, later bindings of a key overwriting earlier ones. -/
def collectMap {κ α : Type} [DecidableEq κ] (ps : List (κ × α)) : List (κ × α) :=
  ps.foldl (fun acc p => insertA p.1 p.2 acc) []

/-! ## Data model (`src/clinical_data.rs`, lines 10-66) -/

/-- `CDEFileValue` is inlined into the `file` constructor below. -/
inductive CDEValue : Type
  | null
  | bool (b : Bool)
  | emptyString
  | str (s : String)
  | number (n : ℚ)
  | emptyRange
  | range (r : Finset String)
  | file (file_name : String) (django_file_id : Nat)
  deriving DecidableEq

/-- `std::mem::discriminant` on `CDEValue`. -/
def CDEValue.tag : CDEValue → Nat
  | .null => 0
  | .bool _ => 1
  | .emptyString => 2
  | .str _ => 3
  | .number _ => 4
  | .emptyRange => 5
  | .range _ => 6
  | .file _ _ => 7

structure CDE : Type where
  code : String
  value : CDEValue
  deriving DecidableEq

abbrev CDEMap : Type := List (String × CDE)

inductive CDESVariant : Type
  | single (m : CDEMap)
  | multiple (ms : List CDEMap)
  deriving DecidableEq

/-- `std::mem::discriminant` on `CDESVariant`. -/
def CDESVariant.tag : CDESVariant → Nat
  | .single _ => 0
  | .multiple _ => 1

structure Section : Type where
  code : String
  allow_multiple : Bool
  cdes : CDESVariant
  deriving DecidableEq

structure Form : Type where
  name : String
  sections : List (String × Section)
  deriving DecidableEq

inductive ClinicalDatumVariant : Type
  | history
  | cdes
  deriving DecidableEq

structure ClinicalDatum : Type where
  id : Nat
  patient : Nat
  variant : ClinicalDatumVariant
  forms : List (String × Form)
  deriving DecidableEq

/-- `ProtoContext = BTreeSet<String>`, kept as its canonical strictly
increasing list of elements. -/
abbrev ProtoContext : Type := List String

/-- `BTreeSet::insert` on the canonical sorted representation. -/
def btreeInsert (s : String) : List String → List String
  | [] => [s]
  | x :: xs =>
    if s < x then s :: x :: xs
    else if s = x then x :: xs
    else x :: btreeInsert s xs

/-- `ClinicalDatum::proto_context`: the form-name keys collected into a
`BTreeSet<String>` (`src/clinical_data.rs`, lines 146-148). -/
def ClinicalDatum.protoContext (cd : ClinicalDatum) : ProtoContext :=
  (keysA cd.forms).foldr btreeInsert []

structure PatientSlice : Type where
  patient : Nat
  clinical_data : List (ProtoContext × ClinicalDatum)
  deriving DecidableEq

/-- `PatientSlice::from` (`src/clinical_data.rs`, lines 269-271). -/
def PatientSlice.fromPatient (patient : Nat) : PatientSlice :=
  { patient := patient, clinical_data := [] }

/-- `PatientSlice::can_add` (`src/clinical_data.rs`, lines 273-276). -/
def PatientSlice.canAdd (s : PatientSlice) (datum : ClinicalDatum) : Bool :=
  (lookupA datum.protoContext s.clinical_data).isNone && datum.patient == s.patient

/-- `PatientSlice::add` (`src/clinical_data.rs`, lines 278-281). -/
def PatientSlice.add (s : PatientSlice) (datum : ClinicalDatum) : PatientSlice :=
  { s with clinical_data := insertA datum.protoContext datum s.clinical_data }

/-! ## Difference types (`src/clinical_data.rs`, lines 284-296, 335-348,
411-422, 463-475, 518-529); borrowed references become owned copies. -/

inductive CDEDifferenceType : Type
  | missing (l r : Option CDE)
  | variant (l r : CDEValue)
  | equality (l r : CDEValue)
  deriving DecidableEq

structure CDEDifference : Type where
  code : String
  diff : CDEDifferenceType
  deriving DecidableEq

inductive SectionDifferenceType : Type
  | missing (l r : Option Section)
  | codeD (l r : String)
  | allowMultiple (l r : Bool)
  | variant (l r : CDESVariant)
  | cdes (ds : List CDEDifference)
  deriving DecidableEq

structure SectionDifference : Type where
  code : String
  diff : SectionDifferenceType
  deriving DecidableEq

inductive FormDifferenceType : Type
  | missing (l r : Option Form)
  | nameD (l r : String)
  | sections (ds : List SectionDifference)
  deriving DecidableEq

structure FormDifference : Type where
  name : String
  diff : FormDifferenceType
  deriving DecidableEq

inductive ClinicalDatumDifferenceType : Type
  | missing (l r : Option ClinicalDatum)
  | patient (l r : Nat)
  | variant (l r : ClinicalDatumVariant)
  | forms (ds : List FormDifference)
  deriving DecidableEq

structure ClinicalDatumDifference : Type where
  proto_context : ProtoContext
  diff : ClinicalDatumDifferenceType
  deriving DecidableEq

inductive PatientSliceDifferenceType : Type
  | patient (l r : Nat)
  | clinicalData (ds : List ClinicalDatumDifference)
  deriving DecidableEq

structure PatientSliceDifference : Type where
  patient : Nat
  ids : String
  diff : PatientSliceDifferenceType
  deriving DecidableEq

/-! ## The diff engine (`src/clinical_data.rs`, lines 297-567).
Each `diff` builds its ordered list of pushed differences and returns
`none` exactly when that list is empty, as the Rust `match diffs.is_empty()`
epilogue does. -/

/-- `CDE::diff` (`src/clinical_data.rs`, lines 300-332). -/
def CDE.diff (self comp : CDE) : Option (List CDEDifference) :=
  let diffs : List CDEDifferenceType :=
    (if self.value.tag ≠ comp.value.tag then [.variant self.value comp.value] else [])
    ++ (match self.value, comp.value with
        | .null, .null => []
        | .emptyString, .emptyString => []
        | .emptyRange, .emptyRange => []
        | .bool b1, .bool b2 =>
          if b1 ≠ b2 then [.equality (.bool b1) (.bool b2)] else []
        | .str s1, .str s2 =>
          if s1 ≠ s2 then [.equality (.str s1) (.str s2)] else []
        | .number n1, .number n2 =>
          if |n1 - n2| > 1 / 100 then [.equality (.number n1) (.number n2)] else []
        | .range r1, .range r2 =>
          if r1 ≠ r2 then [.equality (.range r1) (.range r2)] else []
        | .file f1 i1, .file f2 i2 =>
          if f1 ≠ f2 ∨ i1 ≠ i2 then [.equality (.file f1 i1) (.file f2 i2)] else []
        | _, _ => [])
  match diffs.isEmpty with
  | true => none
  | false => some (diffs.map fun d => { code := self.code, diff := d })

/-- The shared mapping-diff pattern: left-only keys, then recursive diffs of
shared keys, then right-only keys, in the left/right list orders.  The Rust
code repeats this pattern verbatim for CDE maps (`diff_cdes`), section maps,
form maps, and clinical-data maps, varying only the `Missing` constructor
and the element diff. -/
def assocDiff {κ α δ : Type} [DecidableEq κ] (f : α → α → Option (List δ))
    (missL missR : κ → α → δ) (c1 c2 : List (κ × α)) : List δ :=
  (c1.flatMap fun kv =>
    match lookupA kv.1 c2 with
    | none => [missL kv.1 kv.2]
    | some v2 => (f kv.2 v2).getD [])
  ++ (c2.flatMap fun kv =>
    match lookupA kv.1 c1 with
    | none => [missR kv.1 kv.2]
    | some _ => [])

/-- `diff_cdes` inside `Section::diff` (`src/clinical_data.rs`, lines
360-384). -/
def diffCdes (c1 c2 : CDEMap) : Option (List CDEDifference) :=
  let diffs := assocDiff CDE.diff
    (fun k v => { code := k, diff := .missing (some v) none })
    (fun k v => { code := k, diff := .missing none (some v) }) c1 c2
  match diffs.isEmpty with
  | true => none
  | false => some diffs

/-- `Section::diff` (`src/clinical_data.rs`, lines 353-408).  Note the
`Multiple`/`Multiple` arm zips the two instance lists, so instances beyond
the shorter list's length are never compared. -/
def Section.diff (self comp : Section) : Option (List SectionDifference) :=
  let diffs : List SectionDifferenceType :=
    (if self.code ≠ comp.code then [.codeD self.code comp.code] else [])
    ++ (if self.allow_multiple ≠ comp.allow_multiple then
          [.allowMultiple self.allow_multiple comp.allow_multiple] else [])
    ++ (if self.cdes.tag ≠ comp.cdes.tag then [.variant self.cdes comp.cdes] else [])
    ++ (match self.cdes, comp.cdes with
        | .single c1, .single c2 =>
          match diffCdes c1 c2 with
          | none => []
          | some d => [.cdes d]
        | .multiple v1, .multiple v2 =>
          (v1.zip v2).flatMap fun p =>
            match diffCdes p.1 p.2 with
            | none => []
            | some d => [.cdes d]
        | _, _ => [])
  match diffs.isEmpty with
  | true => none
  | false => some (diffs.map fun d => { code := self.code, diff := d })

/-- `Form::diff` (`src/clinical_data.rs`, lines 427-460). -/
def Form.diff (self comp : Form) : Option (List FormDifference) :=
  let sectionDiffs := assocDiff Section.diff
    (fun k v => { code := k, diff := .missing (some v) none })
    (fun k v => { code := k, diff := .missing none (some v) }) self.sections comp.sections
  let diffs : List FormDifferenceType :=
    (if self.name ≠ comp.name then [.nameD self.name comp.name] else [])
    ++ (if sectionDiffs.isEmpty then [] else [.sections sectionDiffs])
  match diffs.isEmpty with
  | true => none
  | false => some (diffs.map fun d => { name := self.name, diff := d })

/-- `ClinicalDatum::diff` (`src/clinical_data.rs`, lines 480-515).  The
record `id` is never compared. -/
def ClinicalDatum.diff (self comp : ClinicalDatum) :
    Option (List ClinicalDatumDifference) :=
  let formDiffs := assocDiff Form.diff
    (fun k v => { name := k, diff := .missing (some v) none })
    (fun k v => { name := k, diff := .missing none (some v) }) self.forms comp.forms
  let diffs : List ClinicalDatumDifferenceType :=
    (if self.patient ≠ comp.patient then [.patient self.patient comp.patient] else [])
    ++ (if self.variant ≠ comp.variant then [.variant self.variant comp.variant] else [])
    ++ (if formDiffs.isEmpty then [] else [.forms formDiffs])
  match diffs.isEmpty with
  | true => none
  | false => some (diffs.map fun d => { proto_context := self.protoContext, diff := d })

/-- The `ids` display string of a `PatientSliceDifference`:
`self.clinical_data.values().map(.id).sorted().join(",")`. -/
def PatientSlice.idsString (s : PatientSlice) : String :=
  String.intercalate ","
    (((s.clinical_data.map fun kv => kv.2.id).insertionSort (· ≤ ·)).map toString)

/-- `PatientSlice::diff` (`src/clinical_data.rs`, lines 534-566). -/
def PatientSlice.diff (self comp : PatientSlice) :
    Option (List PatientSliceDifference) :=
  let cdDiffs := assocDiff ClinicalDatum.diff
    (fun _ v => { proto_context := v.protoContext, diff := .missing (some v) none })
    (fun _ v => { proto_context := v.protoContext, diff := .missing none (some v) })
    self.clinical_data comp.clinical_data
  let diffs : List PatientSliceDifferenceType :=
    (if self.patient ≠ comp.patient then [.patient self.patient comp.patient] else [])
    ++ (if cdDiffs.isEmpty then [] else [.clinicalData cdDiffs])
  match diffs.isEmpty with
  | true => none
  | false => some (diffs.map fun d =>
      { patient := self.patient, ids := self.idsString, diff := d })

/-! ## JSON values (`serde_json::Value`) and the record model builder
(`src/clinical_data.rs`, lines 150-259). -/

/-- `serde_json::Number`: serde stores a parsed JSON number as `u64`,
`i64` (negative only) or `f64`; `as_u64` succeeds only on the first class.
The float class keeps an exact rational here. -/
inductive JNum : Type
  | uint (n : Nat)
  | negInt (n : Int)
  | float (q : ℚ)
  deriving DecidableEq

/-- `serde_json::Number::as_u64`. -/
def JNum.asU64 : JNum → Option Nat
  | .uint n => some n
  | .negInt _ => none
  | .float _ => none

/-- `serde_json::Number::as_f64` (exact here; see the module comment). -/
def JNum.asF64 : JNum → ℚ
  | .uint n => (n : ℚ)
  | .negInt n => (n : ℚ)
  | .float q => q

/-- `serde_json::Value`.  An object is its (duplicate-free) entry list. -/
inductive JValue : Type
  | null
  | bool (b : Bool)
  | num (n : JNum)
  | str (s : String)
  | arr (a : List JValue)
  | obj (o : List (String × JValue))

/-- `Value::as_str`. -/
def JValue.asStr : JValue → Option String
  | .str s => some s
  | _ => none

/-- `Value::as_bool`. -/
def JValue.asBool : JValue → Option Bool
  | .bool b => some b
  | _ => none

/-- `Value::as_array`. -/
def JValue.asArray : JValue → Option (List JValue)
  | .arr a => some a
  | _ => none

/-- `Value::as_object`. -/
def JValue.asObject : JValue → Option (List (String × JValue))
  | .obj o => some o
  | _ => none

/-- `Option::ok_or`: turn an `Option` into an `Except` with the given
error message. -/
def okOr {α : Type} (o : Option α) (msg : String) : Except String α :=
  match o with
  | some a => .ok a
  | none => .error msg

/-- `Iterator::collect::<Result<Vec<_>, _>>`: apply `f` left to right,
stopping at the first error. -/
def mapExcept {α β : Type} (f : α → Except String β) : List α → Except String (List β)
  | [] => .ok []
  | x :: xs => do
    let y ← f x
    let ys ← mapExcept f xs
    pure (y :: ys)

/-- `ClinicalDatum::get_cde_value` (`src/clinical_data.rs`, lines 221-259).
The `django_file_id.as_u64().unwrap()` panic on a number outside the
unsigned-integer class becomes an `Except.error "panic: ..."`; the `as u32`
cast becomes `% 2 ^ 32`. -/
def getCdeValue (value : JValue) : Except String (Option CDEValue) :=
  match value with
  | .bool b => .ok (some (.bool b))
  | .obj o =>
    match lookupA "file_name" o, lookupA "django_file_id" o, lookupA "gridfs_file_id" o with
    | some (.str file_name), some (.num django_file_id), _ =>
      match django_file_id.asU64 with
      | some u => .ok (some (.file file_name (u % 2 ^ 32)))
      | none => .error "panic: django_file_id.as_u64() failed"
    | some (.str file_name), _, some (.str _) =>
      .ok (some (.file file_name 0))
    | _, _, _ => .ok none
  | .null => .ok (some .null)
  | .num n => .ok (some (.number n.asF64))
  | .str s =>
    match s with
    | "" => .ok (some .emptyString)
    | s => .ok (some (.str s))
  | .arr a => do
    let range ← mapExcept (fun s => okOr s.asStr "Invalid range cde value") a
    if range.toFinset = (∅ : Finset String) then
      pure (some .emptyRange)
    else
      pure (some (.range range.toFinset))

/-- The per-entry body of the `get_cdes` closure (`src/clinical_data.rs`,
lines 201-212). -/
def parseCde (data : JValue) : Except String (String × CDE) := do
  let cde ← okOr data.asObject "Invalid cde"
  let codeV ← okOr (lookupA "code" cde) "Missing cde code"
  let code ← okOr codeV.asStr "Invalid cde code"
  let valueV ← okOr (lookupA "value" cde) "Missing cde value"
  let decoded ← getCdeValue valueV
  let value ← okOr decoded "Invalid cde value"
  pure (code, { code := code, value := value })

/-- `ClinicalDatum::get_cdes` (`src/clinical_data.rs`, lines 200-219):
parse every entry, collect into a map, and reject any shrinkage of the
map's size versus the list's length as a duplicate. -/
def getCdes (cdes : List JValue) : Except String CDEMap := do
  let ps ← mapExcept parseCde cdes
  let cde_map := collectMap ps
  if cde_map.length ≠ cdes.length then
    throw "List of CDEs contains duplicates"
  else
    pure cde_map

/-- The per-entry body of the `get_sections` closure
(`src/clinical_data.rs`, lines 172-191). -/
def parseSection (data : JValue) : Except String (String × Section) := do
  let sec ← okOr data.asObject "Invalid section"
  let codeV ← okOr (lookupA "code" sec) "Missing section code"
  let code ← okOr codeV.asStr "Invalid section code"
  let amV ← okOr (lookupA "allow_multiple" sec) "Missing section allow_multiple"
  let allow_multiple ← okOr amV.asBool "Invalid section allow_multiple"
  let cdesV ← okOr (lookupA "cdes" sec) "Missing section cdes"
  let cdesArr ← okOr cdesV.asArray "Invalid section cdes"
  let cdes ←
    match allow_multiple with
    | false => do
      let m ← getCdes cdesArr
      pure (CDESVariant.single m)
    | true => do
      let ms ← mapExcept (fun l => do
        let arr ← okOr l.asArray "Invalid section cdes list"
        getCdes arr) cdesArr
      pure (CDESVariant.multiple ms)
  pure (code, { code := code, allow_multiple := allow_multiple, cdes := cdes })

/-- `ClinicalDatum::get_sections` (`src/clinical_data.rs`, lines 171-198). -/
def getSections (sections : List JValue) : Except String (List (String × Section)) := do
  let ps ← mapExcept parseSection sections
  let sections_map := collectMap ps
  if sections_map.length ≠ sections.length then
    throw "List of sections contains duplicates"
  else
    pure sections_map

/-- The per-entry body of the `get_forms` closure (`src/clinical_data.rs`,
lines 151-162). -/
def parseForm (data : JValue) : Except String (String × Form) := do
  let form ← okOr data.asObject "Invalid form"
  let nameV ← okOr (lookupA "name" form) "Missing form name"
  let name ← okOr nameV.asStr "Invalid form name"
  let sectionsV ← okOr (lookupA "sections" form) "Missing form sections"
  let sectionsArr ← okOr sectionsV.asArray "Invalid form sections"
  let sections ← getSections sectionsArr
  pure (name, { name := name, sections := sections })

/-- `ClinicalDatum::get_forms` (`src/clinical_data.rs`, lines 150-169). -/
def getForms (forms : List JValue) : Except String (List (String × Form)) := do
  let ps ← mapExcept parseForm forms
  let forms_map := collectMap ps
  if forms_map.length ≠ forms.length then
    throw "List of forms contains duplicates"
  else
    pure forms_map

/-! ## The patient-slice assembler (`src/registry_data.rs`, lines 89-115).
The iterator of `ClinicalDatum` becomes the list of elements it has left to
produce; `next` returns the yielded slice and the remaining list. -/

/-- The peek/consume loop inside `RegistryData::next`: while the next record
can be added to the current slice, consume and add it; stop (leaving the
peeked record unconsumed) otherwise. -/
def sliceLoop : PatientSlice → List ClinicalDatum → PatientSlice × List ClinicalDatum
  | slice, [] => (slice, [])
  | slice, cd :: rest =>
    match slice.canAdd cd with
    | true => sliceLoop (slice.add cd) rest
    | false => (slice, cd :: rest)

/-- `RegistryData::next` (`src/registry_data.rs`, lines 92-114): take the
next record, open a slice for its patient, add it, then run the loop. -/
def registryNext : List ClinicalDatum → Option (PatientSlice × List ClinicalDatum)
  | [] => none
  | first_cd :: rest =>
    some (sliceLoop ((PatientSlice.fromPatient first_cd.patient).add first_cd) rest)

/-- All slices the iterator yields, by repeated `registryNext`.  The fuel
argument only serves termination; `l.length` is always enough fuel because
the loop never grows the remainder. -/
def registrySlicesFuel : Nat → List ClinicalDatum → List PatientSlice
  | 0, _ => []
  | _, [] => []
  | fuel + 1, first_cd :: rest =>
    let p := sliceLoop ((PatientSlice.fromPatient first_cd.patient).add first_cd) rest
    p.1 :: registrySlicesFuel fuel p.2

def registrySlices (l : List ClinicalDatum) : List PatientSlice :=
  registrySlicesFuel l.length l

/-- The records stored in a slice, in insertion order. -/
def PatientSlice.records (s : PatientSlice) : List ClinicalDatum :=
  s.clinical_data.map Prod.snd

/-- The slices reachable by the assembler's protocol: start from
`PatientSlice::from(patient)` and grow only through `add` calls each
guarded by a preceding true `can_add`. -/
inductive PatientSlice.Reachable : PatientSlice → Prop
  | base (p : Nat) : PatientSlice.Reachable (PatientSlice.fromPatient p)
  | step {s : PatientSlice} {d : ClinicalDatum} :
      PatientSlice.Reachable s → s.canAdd d = true → PatientSlice.Reachable (s.add d)

/-! ## The incremental array reader
(`RegistryData::read_array_file_to_values`, `src/registry_data.rs`,
lines 41-61).  The byte stream becomes its list of lines; the `scan` state
is the `partial` line buffer, called `buf` here.  The JSON parse of a
completed element text does not touch the buffer, so an emitted element is
kept as its raw joined text. -/

/-- Characters currently buffered. -/
def bufSize (buf : List String) : Nat := (buf.map String.length).sum

/-- The element texts the reader emits: `[` is a structural marker, `]`
ends the iteration, a terminator line closes and clears the buffer, any
other line is appended to the buffer. -/
def readEmits (buf : List String) : List String → List String
  | [] => []
  | line :: rest =>
    if line = "[" then readEmits buf rest
    else if line = "]" then []
    else if line = "    \x7d" ∨ line = "    \x7d," then
      String.intercalate "\n" (buf ++ ["\x7d"]) :: readEmits [] rest
    else readEmits (buf ++ [line]) rest

/-- Peak buffered size over the whole run: the maximum of `bufSize` over
every buffer state the reader passes through, including the transient
buffer holding the closing brace just before an element is emitted. -/
def readPeak (buf : List String) : List String → Nat
  | [] => bufSize buf
  | line :: rest =>
    if line = "[" then max (bufSize buf) (readPeak buf rest)
    else if line = "]" then bufSize buf
    else if line = "    \x7d" ∨ line = "    \x7d," then
      max (bufSize (buf ++ ["\x7d"])) (readPeak [] rest)
    else max (bufSize (buf ++ [line])) (readPeak (buf ++ [line]) rest)

/-- A line of an element's body: not a structural marker and not a
terminator. -/
def bodyLine (l : String) : Prop :=
  l ≠ "[" ∧ l ≠ "]" ∧ l ≠ "    \x7d" ∧ l ≠ "    \x7d,"

instance (l : String) : Decidable (bodyLine l) := by
  unfold bodyLine; infer_instance

/-- `n` copies of one element block, each closed by a terminator line. -/
def syntheticBlocks (elem : List String) : Nat → List String
  | 0 => []
  | n + 1 => (elem ++ ["    \x7d,"]) ++ syntheticBlocks elem n

/-- A synthetic export array of `n` identical fixed-size elements, per the
export convention: `[` alone first, `]` alone last. -/
def syntheticInput (elem : List String) (n : Nat) : List String :=
  "[" :: (syntheticBlocks elem n ++ ["]"])

/-! ## Well-formedness: a Rust `HashMap` never holds two bindings of one
key, which the association-list embedding records as `Nodup` on the key
column, at every nesting level. -/

def CDESVariant.wf : CDESVariant → Prop
  | .single m => (keysA m).Nodup
  | .multiple ms => ∀ m ∈ ms, (keysA m).Nodup

def Section.wf (s : Section) : Prop := s.cdes.wf

def Form.wf (f : Form) : Prop :=
  (keysA f.sections).Nodup ∧ ∀ kv ∈ f.sections, Section.wf kv.2

def ClinicalDatum.wf (cd : ClinicalDatum) : Prop :=
  (keysA cd.forms).Nodup ∧ ∀ kv ∈ cd.forms, Form.wf kv.2

def PatientSlice.wf (s : PatientSlice) : Prop :=
  (keysA s.clinical_data).Nodup ∧ ∀ kv ∈ s.clinical_data, ClinicalDatum.wf kv.2

instance : DecidablePred CDESVariant.wf := by
  intro v; cases v <;> (unfold CDESVariant.wf; infer_instance)

instance : DecidablePred Section.wf := by
  intro s; unfold Section.wf; infer_instance

instance : DecidablePred Form.wf := by
  intro f; unfold Form.wf; infer_instance

instance : DecidablePred ClinicalDatum.wf := by
  intro cd; unfold ClinicalDatum.wf; infer_instance

instance : DecidablePred PatientSlice.wf := by
  intro s; unfold PatientSlice.wf; infer_instance

/-! ## Concrete sample values (used by witness theorems) -/

def cdeW : CDE := { code := "CDE01", value := .bool true }

def sectionW : Section :=
  { code := "SEC01", allow_multiple := false, cdes := .single [("CDE01", cdeW)] }

def formW : Form := { name := "FormA", sections := [("SEC01", sectionW)] }

def datumW : ClinicalDatum :=
  { id := 7, patient := 3, variant := .cdes, forms := [("FormA", formW)] }

def sliceW : PatientSlice :=
  { patient := 3, clinical_data := [(datumW.protoContext, datumW)] }

/-! ## Association-list lemmas -/

theorem lookupA_mem {κ α : Type} [DecidableEq κ] {m : List (κ × α)} {k : κ} {v : α}
    (hnd : (keysA m).Nodup) (hmem : (k, v) ∈ m) : lookupA k m = some v := by
  induction m with
  | nil => cases hmem
  | cons kv rest ih =>
    rcases kv with ⟨k', v'⟩
    rcases List.mem_cons.mp hmem with h | h
    · injection h with h1 h2
      subst h1; subst h2
      simp [lookupA]
    · have hk : k ≠ k' := by
        rintro rfl
        exact (List.nodup_cons.mp hnd).1 (List.mem_map.mpr ⟨(k, v), h, rfl⟩)
      simp [lookupA, hk, ih (List.nodup_cons.mp hnd).2 h]

theorem flatMap_eq_nil_of {β δ : Type} {l : List β} {f : β → List δ}
    (h : ∀ x ∈ l, f x = []) : l.flatMap f = [] := by
  induction l with
  | nil => rfl
  | cons x xs ih =>
    rw [List.flatMap_cons, h x (List.mem_cons_self x xs),
      ih fun y hy => h y (List.mem_cons_of_mem x hy)]
    rfl

theorem zip_self {β : Type} (l : List β) : l.zip l = l.map fun x => (x, x) := by
  induction l with
  | nil => rfl
  | cons x xs ih => simp [List.zip_cons_cons, ih]

/-! ## Reflexivity of the diff engine -/

theorem assocDiff_refl {κ α δ : Type} [DecidableEq κ] {f : α → α → Option (List δ)}
    {missL missR : κ → α → δ} {c : List (κ × α)} (hnd : (keysA c).Nodup)
    (hf : ∀ kv ∈ c, f kv.2 kv.2 = none) :
    assocDiff f missL missR c c = [] := by
  have h1 : (c.flatMap fun kv =>
      match lookupA kv.1 c with
      | none => [missL kv.1 kv.2]
      | some v2 => (f kv.2 v2).getD []) = [] := by
    apply flatMap_eq_nil_of
    intro kv hkv
    have hl : lookupA kv.1 c = some kv.2 :=
      lookupA_mem hnd (by rcases kv with ⟨k, v⟩; exact hkv)
    simp only [hl, hf kv hkv]
    rfl
  have h2 : (c.flatMap fun kv =>
      match lookupA kv.1 c with
      | none => [missR kv.1 kv.2]
      | some _ => []) = [] := by
    apply flatMap_eq_nil_of
    intro kv hkv
    have hl : lookupA kv.1 c = some kv.2 :=
      lookupA_mem hnd (by rcases kv with ⟨k, v⟩; exact hkv)
    simp only [hl]
  unfold assocDiff
  rw [h1, h2]
  rfl

theorem cde_diff_refl (c : CDE) : c.diff c = none := by
  rcases c with ⟨code, v⟩
  cases v <;> simp [CDE.diff, CDEValue.tag, show ¬ ((100 : ℚ) < 0) by norm_num]

theorem diffCdes_refl {m : CDEMap} (hnd : (keysA m).Nodup) : diffCdes m m = none := by
  unfold diffCdes
  rw [assocDiff_refl hnd fun kv _ => cde_diff_refl kv.2]
  rfl

theorem section_diff_refl (s : Section) (h : s.wf) : s.diff s = none := by
  rcases s with ⟨code, am, cdes⟩
  cases cdes with
  | single m =>
    have hm : (keysA m).Nodup := h
    simp [Section.diff, CDESVariant.tag, diffCdes_refl hm]
  | multiple ms =>
    have hms : ∀ m ∈ ms, (keysA m).Nodup := h
    have hz : ((ms.zip ms).flatMap fun p =>
        match diffCdes p.1 p.2 with
        | none => []
        | some d => [SectionDifferenceType.cdes d]) = [] := by
      rw [zip_self, List.flatMap_map]
      exact flatMap_eq_nil_of fun m hm => by rw [diffCdes_refl (hms m hm)]
    simp [Section.diff, CDESVariant.tag, hz]

theorem form_diff_refl (f : Form) (h : f.wf) : f.diff f = none := by
  rcases f with ⟨name, sections⟩
  have hs : assocDiff Section.diff
      (fun k v => { code := k, diff := .missing (some v) none })
      (fun k v => { code := k, diff := .missing none (some v) }) sections sections = [] :=
    assocDiff_refl h.1 fun kv hkv => section_diff_refl kv.2 (h.2 kv hkv)
  simp [Form.diff, hs]

theorem clinicalDatum_diff_refl (cd : ClinicalDatum) (h : cd.wf) : cd.diff cd = none := by
  rcases cd with ⟨id, patient, variant, forms⟩
  have hf : assocDiff Form.diff
      (fun k v => { name := k, diff := .missing (some v) none })
      (fun k v => { name := k, diff := .missing none (some v) }) forms forms = [] :=
    assocDiff_refl h.1 fun kv hkv => form_diff_refl kv.2 (h.2 kv hkv)
  simp [ClinicalDatum.diff, hf]

theorem patientSlice_diff_refl (s : PatientSlice) (h : s.wf) : s.diff s = none := by
  rcases s with ⟨patient, data⟩
  have hd : assocDiff ClinicalDatum.diff
      (fun _ v => { proto_context := v.protoContext, diff := .missing (some v) none })
      (fun _ v => { proto_context := v.protoContext, diff := .missing none (some v) })
      data data = [] :=
    assocDiff_refl h.1 fun kv hkv => clinicalDatum_diff_refl kv.2 (h.2 kv hkv)
  simp [PatientSlice.diff, hd]

/-- The value of `CDE::diff` on two `Number` CDEs: one `Equality`
difference exactly when the absolute difference exceeds `0.01`, otherwise
no differences. -/
theorem cde_diff_number (code1 code2 : String) (n1 n2 : ℚ) :
    CDE.diff ⟨code1, .number n1⟩ ⟨code2, .number n2⟩ =
      if |n1 - n2| > 1 / 100 then
        some [⟨code1, .equality (.number n1) (.number n2)⟩]
      else none := by
  by_cases h : |n1 - n2| > 1 / 100
  · have h' : (100 : ℚ)⁻¹ < |n1 - n2| := by rwa [gt_iff_lt, one_div] at h
    simp [CDE.diff, CDEValue.tag, h, h']
  · have h' : ¬ (100 : ℚ)⁻¹ < |n1 - n2| := by rwa [gt_iff_lt, one_div] at h
    simp [CDE.diff, CDEValue.tag, h, h']

theorem abs_sub_1009_1000 : ¬ |(1 : ℚ) - 1009 / 1000| > 1 / 100 := by
  rw [show (1 : ℚ) - 1009 / 1000 = -(9 / 1000) by norm_num, abs_neg,
    abs_of_pos (by norm_num)]
  norm_num

theorem abs_sub_51_50 : |(1 : ℚ) - 51 / 50| > 1 / 100 := by
  rw [show (1 : ℚ) - 51 / 50 = -(1 / 50) by norm_num, abs_neg,
    abs_of_pos (by norm_num)]
  norm_num

/-! ## Decoding lemmas -/

theorem mapExcept_str_ok (msg : String) (ss : List String) :
    mapExcept (fun s => okOr s.asStr msg) (ss.map JValue.str) = Except.ok ss := by
  induction ss with
  | nil => rfl
  | cons x xs ih =>
    simp only [mapExcept, ih]
    rfl

theorem mapExcept_str_err (msg : String) (a : List JValue)
    (h : ∃ x ∈ a, x.asStr = none) :
    mapExcept (fun s => okOr s.asStr msg) a = Except.error msg := by
  induction a with
  | nil =>
    rcases h with ⟨x, hx, _⟩
    cases hx
  | cons x xs ih =>
    rcases hx : x.asStr with _ | s
    · simp only [mapExcept, hx]
      rfl
    · rcases h with ⟨y, hy, hys⟩
      rcases List.mem_cons.mp hy with h' | h'
      · subst h'
        exact absurd (hx.symm.trans hys) (by simp)
      · simp only [mapExcept, hx, ih ⟨y, h', hys⟩]
        rfl

/-- The `Value::Array` branch of `get_cde_value`, as an equation. -/
theorem getCdeValue_arr (a : List JValue) :
    getCdeValue (.arr a) = (do
      let range ← mapExcept (fun s => okOr s.asStr "Invalid range cde value") a
      if range.toFinset = (∅ : Finset String) then pure (some CDEValue.emptyRange)
      else pure (some (CDEValue.range range.toFinset))) := rfl

/-- The `Value::Object` branch of `get_cde_value`, as an equation. -/
theorem getCdeValue_obj (o : List (String × JValue)) :
    getCdeValue (.obj o) =
      (match lookupA "file_name" o, lookupA "django_file_id" o, lookupA "gridfs_file_id" o with
      | some (.str file_name), some (.num django_file_id), _ =>
        match django_file_id.asU64 with
        | some u => .ok (some (.file file_name (u % 2 ^ 32)))
        | none => .error "panic: django_file_id.as_u64() failed"
      | some (.str file_name), _, some (.str _) => .ok (some (.file file_name 0))
      | _, _, _ => .ok none) := rfl

/-! ## Claims -/

/-- C3: diffing any value against itself yields no differences, at every
entity level and every CDE value variant: for every CDE (whatever its value
variant), every Section (Single or Multiple), every Form, every
ClinicalDatum and every PatientSlice — each with duplicate-free map keys,
as every value built by the Rust code is — `x.diff(x)` returns `None`. -/
theorem c3_diff_self_none :
    (∀ c : CDE, c.diff c = none) ∧
    (∀ s : Section, s.wf → s.diff s = none) ∧
    (∀ f : Form, f.wf → f.diff f = none) ∧
    (∀ cd : ClinicalDatum, cd.wf → cd.diff cd = none) ∧
    (∀ ps : PatientSlice, ps.wf → ps.diff ps = none) :=
  ⟨cde_diff_refl, section_diff_refl, form_diff_refl, clinicalDatum_diff_refl,
    patientSlice_diff_refl⟩

/-- Witness for C3 at concrete well-formed values of each type. -/
theorem c3_diff_self_none_witness :
    (CDE.diff cdeW cdeW = none) ∧
    (sectionW.wf ∧ Section.diff sectionW sectionW = none) ∧
    (formW.wf ∧ Form.diff formW formW = none) ∧
    (datumW.wf ∧ ClinicalDatum.diff datumW datumW = none) ∧
    (sliceW.wf ∧ PatientSlice.diff sliceW sliceW = none) :=
  ⟨c3_diff_self_none.1 cdeW,
    ⟨by decide, c3_diff_self_none.2.1 sectionW (by decide)⟩,
    ⟨by decide, c3_diff_self_none.2.2.1 formW (by decide)⟩,
    ⟨by decide, c3_diff_self_none.2.2.2.1 datumW (by decide)⟩,
    ⟨by decide, c3_diff_self_none.2.2.2.2 sliceW (by decide)⟩⟩

/-- C4: for two CDEs with equal codes and `Number` values, diff reports
exactly one `Equality` difference when `|n1 - n2|` exceeds `0.01` and no
difference otherwise; `Number(1.000)` vs `Number(1.009)` gives none,
`Number(1.000)` vs `Number(1.02)` gives exactly one `Equality`. -/
theorem c4_number_tolerance :
    (∀ (code : String) (n1 n2 : ℚ), |n1 - n2| > 1 / 100 →
      CDE.diff ⟨code, .number n1⟩ ⟨code, .number n2⟩ =
        some [⟨code, .equality (.number n1) (.number n2)⟩]) ∧
    (∀ (code : String) (n1 n2 : ℚ), ¬ |n1 - n2| > 1 / 100 →
      CDE.diff ⟨code, .number n1⟩ ⟨code, .number n2⟩ = none) ∧
    CDE.diff ⟨"c", .number 1⟩ ⟨"c", .number (1009 / 1000)⟩ = none ∧
    CDE.diff ⟨"c", .number 1⟩ ⟨"c", .number (51 / 50)⟩ =
      some [⟨"c", .equality (.number 1) (.number (51 / 50))⟩] :=
  ⟨fun code n1 n2 h => by rw [cde_diff_number, if_pos h],
    fun code n1 n2 h => by rw [cde_diff_number, if_neg h],
    by rw [cde_diff_number, if_neg abs_sub_1009_1000],
    by rw [cde_diff_number, if_pos abs_sub_51_50]⟩

/-- Witness for C4 at concrete numbers on both sides of the tolerance. -/
theorem c4_number_tolerance_witness :
    (|(2 : ℚ) - 1| > 1 / 100 ∧
      CDE.diff ⟨"n", .number 2⟩ ⟨"n", .number 1⟩ =
        some [⟨"n", .equality (.number 2) (.number 1)⟩]) ∧
    (¬ |(1 : ℚ) - 1| > 1 / 100 ∧
      CDE.diff ⟨"n", .number 1⟩ ⟨"n", .number 1⟩ = none) :=
  ⟨⟨by norm_num, c4_number_tolerance.1 "n" 2 1 (by norm_num)⟩,
    ⟨by norm_num, c4_number_tolerance.2.1 "n" 1 1 (by norm_num)⟩⟩

/-- C5: two CDEs whose values carry different variant tags diff to exactly
one difference, of kind `Variant` — never `Equality`, and no payload
comparison happens. -/
theorem c5_variant_mismatch (c1 c2 : CDE) (h : c1.value.tag ≠ c2.value.tag) :
    c1.diff c2 = some [⟨c1.code, .variant c1.value c2.value⟩] := by
  rcases c1 with ⟨code1, v1⟩
  rcases c2 with ⟨code2, v2⟩
  simp only [CDE.code, CDE.value] at h ⊢
  cases v1 <;> cases v2 <;> first
    | exact absurd rfl h
    | simp [CDE.diff, CDEValue.tag]

/-- Witness for C5: a Number CDE against a String CDE yields exactly one
`Variant` difference. -/
theorem c5_variant_mismatch_witness :
    CDEValue.tag (.number 1) ≠ CDEValue.tag (.str "x") ∧
    CDE.diff ⟨"c", .number 1⟩ ⟨"c", .str "x"⟩ =
      some [⟨"c", .variant (.number 1) (.str "x")⟩] :=
  ⟨by decide, c5_variant_mismatch ⟨"c", .number 1⟩ ⟨"c", .str "x"⟩ (by decide)⟩

/-- C1 (failing input): `Section::diff` zips the two `Multiple` instance
lists, truncating at the shorter one, so two Multiple sections with
different instance counts whose common prefix matches produce NO
differences even though the sections differ — against the contract that
diff returns "no differences" exactly on recursive equality. -/
theorem c1_multiple_count_mismatch_no_diff :
    Section.diff ⟨"SEC", true, .multiple []⟩
        ⟨"SEC", true, .multiple [[("X", ⟨"X", .bool true⟩)]]⟩ = none ∧
    (⟨"SEC", true, .multiple []⟩ : Section) ≠
        ⟨"SEC", true, .multiple [[("X", ⟨"X", .bool true⟩)]]⟩ :=
  ⟨by rfl, by decide⟩

/-- C10: an object with a string `file_name` and a string `gridfs_file_id`
but no numeric `django_file_id` decodes to `File` with numeric id `0`
whatever the gridfs id holds; two such values with one file name diff as
equal, and against a `django_file_id`-decoded `File` with a nonzero id they
diff with one `Equality` difference. -/
theorem c10_gridfs_decodes_to_zero_id :
    (∀ (o : List (String × JValue)) (fn g : String),
      lookupA "file_name" o = some (.str fn) →
      lookupA "gridfs_file_id" o = some (.str g) →
      (∀ n : JNum, lookupA "django_file_id" o ≠ some (.num n)) →
      getCdeValue (.obj o) = .ok (some (.file fn 0))) ∧
    (∀ (code fn : String),
      CDE.diff ⟨code, .file fn 0⟩ ⟨code, .file fn 0⟩ = none) ∧
    (∀ (code fn : String) (k : Nat), k ≠ 0 →
      CDE.diff ⟨code, .file fn 0⟩ ⟨code, .file fn k⟩ =
        some [⟨code, .equality (.file fn 0) (.file fn k)⟩]) := by
  refine ⟨?_, ?_, ?_⟩
  · intro o fn g h1 h2 h3
    unfold getCdeValue
    rcases hd : lookupA "django_file_id" o with _ | v
    · simp only [h1, h2, hd]
    · cases v with
      | num n => exact absurd hd (h3 n)
      | _ => simp only [h1, h2, hd]
  · intro code fn
    exact cde_diff_refl ⟨code, .file fn 0⟩
  · intro code fn k hk
    simp [CDE.diff, CDEValue.tag, Ne.symm hk]

/-- The key column of `insertA`: unchanged for a present key, the key
appended for a fresh one. -/
theorem keysA_insertA {κ α : Type} [DecidableEq κ] (k : κ) (v : α) (m : List (κ × α)) :
    keysA (insertA k v m) = if k ∈ keysA m then keysA m else keysA m ++ [k] := by
  induction m with
  | nil => simp [insertA, keysA]
  | cons kv rest ih =>
    rcases kv with ⟨k', v'⟩
    by_cases hk : k = k'
    · subst hk
      simp [insertA, keysA]
    · have hins : insertA k v ((k', v') :: rest) = (k', v') :: insertA k v rest := by
        simp [insertA, hk]
      have hkeys : keysA ((k', v') :: insertA k v rest) = k' :: keysA (insertA k v rest) := rfl
      rw [hins, hkeys, ih]
      by_cases hm : k ∈ keysA rest
      · rw [if_pos hm, if_pos (show k ∈ keysA ((k', v') :: rest) from List.mem_cons_of_mem k' hm)]
        rfl
      · rw [if_neg hm, if_neg (show ¬ k ∈ keysA ((k', v') :: rest) by
          intro hmem
          rcases List.mem_cons.mp hmem with h1 | h1
          · exact hk h1
          · exact hm h1)]
        rfl

/-- Folding `insertA` keeps the key column duplicate-free and makes its
membership the union of the seed's and the input's key columns. -/
theorem foldl_insertA_spec {κ α : Type} [DecidableEq κ] (ps : List (κ × α)) :
    ∀ acc : List (κ × α), (keysA acc).Nodup →
      (keysA (ps.foldl (fun a p => insertA p.1 p.2 a) acc)).Nodup ∧
      (∀ x, x ∈ keysA (ps.foldl (fun a p => insertA p.1 p.2 a) acc) ↔
        x ∈ keysA acc ∨ x ∈ keysA ps) := by
  induction ps with
  | nil => intro acc hacc; simpa [keysA] using hacc
  | cons p rest ih =>
    rcases p with ⟨k, v⟩
    intro acc hacc
    have h1 : (keysA (insertA k v acc)).Nodup := by
      rw [keysA_insertA]
      by_cases hm : k ∈ keysA acc
      · simpa [hm] using hacc
      · simp [hm, List.nodup_append, hacc, List.disjoint_singleton]
    have h2 : ∀ x, x ∈ keysA (insertA k v acc) ↔ x ∈ keysA acc ∨ x = k := by
      intro x
      rw [keysA_insertA]
      by_cases hm : k ∈ keysA acc
      · simp only [hm, if_true]
        constructor
        · exact Or.inl
        · rintro (h | rfl)
          · exact h
          · exact hm
      · simp [hm]
    obtain ⟨ha, hb⟩ := ih (insertA k v acc) h1
    refine ⟨ha, fun x => ?_⟩
    rw [List.foldl_cons] at *
    rw [hb x, h2 x]
    simp only [keysA, List.map_cons, List.mem_cons]
    tauto

/-- A duplicated key makes the collected map strictly shorter than the
source list. -/
theorem collectMap_length_lt {κ α : Type} [DecidableEq κ] (ps : List (κ × α))
    (h : ¬ (keysA ps).Nodup) : (collectMap ps).length < ps.length := by
  obtain ⟨hnd0, hmem0⟩ := foldl_insertA_spec ps [] (by simp [keysA])
  have hnd : (keysA (collectMap ps)).Nodup := hnd0
  have hmem : ∀ x, x ∈ keysA (collectMap ps) ↔ x ∈ keysA ps := by
    intro x
    have hx : x ∈ keysA (collectMap ps) ↔ x ∈ keysA ([] : List (κ × α)) ∨ x ∈ keysA ps :=
      hmem0 x
    simpa [keysA] using hx
  have hlen : (collectMap ps).length = (keysA (collectMap ps)).length := by
    simp [keysA]
  have hperm : List.Perm (keysA (collectMap ps)) ((keysA ps).dedup) := by
    rw [List.perm_ext_iff_of_nodup hnd (List.nodup_dedup _)]
    intro a
    rw [List.mem_dedup]
    exact hmem a
  have hd : (keysA ps).dedup.length < (keysA ps).length := by
    rcases Nat.lt_or_ge (keysA ps).dedup.length (keysA ps).length with hlt | hge
    · exact hlt
    · exfalso
      have heq : (keysA ps).dedup = keysA ps :=
        (List.dedup_sublist (keysA ps)).eq_of_length
          (Nat.le_antisymm ((List.dedup_sublist _).length_le) hge)
      exact h (heq ▸ List.nodup_dedup (keysA ps))
  have : (keysA ps).length = ps.length := by simp [keysA]
  rw [hlen, hperm.length_eq]
  omega

/-- `mapExcept` preserves length on success. -/
theorem mapExcept_length {α β : Type} (f : α → Except String β) :
    ∀ (l : List α) (ps : List β), mapExcept f l = .ok ps → ps.length = l.length := by
  intro l
  induction l with
  | nil =>
    intro ps h
    cases h
    rfl
  | cons x xs ih =>
    intro ps h
    rcases hx : f x with e | y <;> rw [mapExcept, hx] at h
    · cases h
    · rcases hxs : mapExcept f xs with e | ys <;> rw [hxs] at h
      · cases h
      · cases h
        simpa using congrArg Nat.succ (ih ys hxs)

/-- On a successfully parsed list with a duplicated key, the collected map
shrinks versus the source list. -/
theorem collect_shrinks {β : Type} {l : List JValue} {ps : List (String × β)}
    (parse : JValue → Except String (String × β))
    (h1 : mapExcept parse l = .ok ps) (h2 : ¬ (keysA ps).Nodup) :
    (collectMap ps).length ≠ l.length := by
  have hlt := collectMap_length_lt ps h2
  have hl := mapExcept_length parse l ps h1
  omega

/-- C7: a forms list (and likewise a sections list or a CDEs list) whose
entries all parse but in which two entries share one name or code fails
with the corresponding duplicates error — the duplicate is detected as
shrinkage of the collected mapping versus the list, never silently
deduplicated into a success. -/
theorem c7_duplicate_keys_rejected :
    (∀ (l : List JValue) (ps : List (String × Form)),
      mapExcept parseForm l = .ok ps → ¬ (keysA ps).Nodup →
      getForms l = .error "List of forms contains duplicates") ∧
    (∀ (l : List JValue) (ps : List (String × Section)),
      mapExcept parseSection l = .ok ps → ¬ (keysA ps).Nodup →
      getSections l = .error "List of sections contains duplicates") ∧
    (∀ (l : List JValue) (ps : List (String × CDE)),
      mapExcept parseCde l = .ok ps → ¬ (keysA ps).Nodup →
      getCdes l = .error "List of CDEs contains duplicates") := by
  refine ⟨?_, ?_, ?_⟩
  · intro l ps h1 h2
    unfold getForms
    rw [h1]
    show (if (collectMap ps).length ≠ l.length then
        (throw "List of forms contains duplicates" : Except String _)
      else pure (collectMap ps)) = _
    rw [if_pos (collect_shrinks parseForm h1 h2)]
    rfl
  · intro l ps h1 h2
    unfold getSections
    rw [h1]
    show (if (collectMap ps).length ≠ l.length then
        (throw "List of sections contains duplicates" : Except String _)
      else pure (collectMap ps)) = _
    rw [if_pos (collect_shrinks parseSection h1 h2)]
    rfl
  · intro l ps h1 h2
    unfold getCdes
    rw [h1]
    show (if (collectMap ps).length ≠ l.length then
        (throw "List of CDEs contains duplicates" : Except String _)
      else pure (collectMap ps)) = _
    rw [if_pos (collect_shrinks parseCde h1 h2)]
    rfl

/-- Witness for C7 on concrete two-entry lists sharing a name or code. -/
theorem c7_duplicate_keys_rejected_witness :
    (mapExcept parseForm
        [.obj [("name", .str "F"), ("sections", .arr [])],
         .obj [("name", .str "F"), ("sections", .arr [])]] =
      .ok [("F", { name := "F", sections := [] }),
           ("F", { name := "F", sections := [] })] ∧
      ¬ (keysA [("F", ({ name := "F", sections := [] } : Form)),
                ("F", { name := "F", sections := [] })]).Nodup ∧
      getForms [.obj [("name", .str "F"), ("sections", .arr [])],
                .obj [("name", .str "F"), ("sections", .arr [])]] =
        .error "List of forms contains duplicates") ∧
    (mapExcept parseSection
        [.obj [("code", .str "S"), ("allow_multiple", .bool false), ("cdes", .arr [])],
         .obj [("code", .str "S"), ("allow_multiple", .bool false), ("cdes", .arr [])]] =
      .ok [("S", { code := "S", allow_multiple := false, cdes := .single [] }),
           ("S", { code := "S", allow_multiple := false, cdes := .single [] })] ∧
      ¬ (keysA [("S", ({ code := "S", allow_multiple := false, cdes := .single [] } : Section)),
                ("S", { code := "S", allow_multiple := false, cdes := .single [] })]).Nodup ∧
      getSections [.obj [("code", .str "S"), ("allow_multiple", .bool false), ("cdes", .arr [])],
                   .obj [("code", .str "S"), ("allow_multiple", .bool false), ("cdes", .arr [])]] =
        .error "List of sections contains duplicates") ∧
    (mapExcept parseCde
        [.obj [("code", .str "C"), ("value", .null)],
         .obj [("code", .str "C"), ("value", .null)]] =
      .ok [("C", { code := "C", value := .null }), ("C", { code := "C", value := .null })] ∧
      ¬ (keysA [("C", ({ code := "C", value := .null } : CDE)),
                ("C", { code := "C", value := .null })]).Nodup ∧
      getCdes [.obj [("code", .str "C"), ("value", .null)],
               .obj [("code", .str "C"), ("value", .null)]] =
        .error "List of CDEs contains duplicates") :=
  ⟨⟨rfl, by decide,
      c7_duplicate_keys_rejected.1
        [.obj [("name", .str "F"), ("sections", .arr [])],
         .obj [("name", .str "F"), ("sections", .arr [])]]
        [("F", { name := "F", sections := [] }), ("F", { name := "F", sections := [] })]
        rfl (by decide)⟩,
    ⟨rfl, by decide,
      c7_duplicate_keys_rejected.2.1
        [.obj [("code", .str "S"), ("allow_multiple", .bool false), ("cdes", .arr [])],
         .obj [("code", .str "S"), ("allow_multiple", .bool false), ("cdes", .arr [])]]
        [("S", { code := "S", allow_multiple := false, cdes := .single [] }),
         ("S", { code := "S", allow_multiple := false, cdes := .single [] })]
        rfl (by decide)⟩,
    ⟨rfl, by decide,
      c7_duplicate_keys_rejected.2.2
        [.obj [("code", .str "C"), ("value", .null)],
         .obj [("code", .str "C"), ("value", .null)]]
        [("C", { code := "C", value := .null }), ("C", { code := "C", value := .null })]
        rfl (by decide)⟩⟩

/-- C6 (counterexample): an object with a string `file_name` and a numeric
`django_file_id` of serde's float class panics in
`django_file_id.as_u64().unwrap()` instead of decoding to a `File` value,
so "a number becomes ... / a numeric file id becomes File" does not hold
for every numeric id. -/
theorem c6_float_file_id_panics :
    getCdeValue (.obj [("file_name", .str "f"), ("django_file_id", .num (.float (1 / 2)))]) =
      .error "panic: django_file_id.as_u64() failed" := by
  rfl

/-- C6 (amended): CDE value decoding, clause by clause: booleans and null
pass through; a number becomes `Number`; the empty string becomes
`EmptyString` and other strings `String`; an array of strings becomes
`EmptyRange` exactly when empty and otherwise `Range` of the unordered set
of its strings (`[""]` gives `Range {""}`); an array with a non-string
element is a decoding error; an object with a string file name and a
numeric file id of the unsigned-integer class becomes `File` (id cast to
u32), while one whose numeric id is of the negative-integer or float class
aborts with a panic; an object decodes only to `File`, a rejection, or
that panic—never to a silent null—and a rejected (`Ok(None)`) value makes
the enclosing CDE parse fail with "Invalid cde value". -/
theorem c6_cde_value_decoding :
    (∀ b, getCdeValue (.bool b) = .ok (some (.bool b))) ∧
    (getCdeValue .null = .ok (some .null)) ∧
    (∀ n : JNum, getCdeValue (.num n) = .ok (some (.number n.asF64))) ∧
    (getCdeValue (.str "") = .ok (some .emptyString)) ∧
    (∀ s : String, s ≠ "" → getCdeValue (.str s) = .ok (some (.str s))) ∧
    (getCdeValue (.arr []) = .ok (some .emptyRange)) ∧
    (∀ ss : List String, ss ≠ [] →
      getCdeValue (.arr (ss.map .str)) = .ok (some (.range ss.toFinset))) ∧
    (getCdeValue (.arr [.str ""]) = .ok (some (.range {""}))) ∧
    (∀ a : List JValue, (∃ x ∈ a, x.asStr = none) →
      getCdeValue (.arr a) = .error "Invalid range cde value") ∧
    (∀ (o : List (String × JValue)) (fn : String) (n : JNum) (u : Nat),
      lookupA "file_name" o = some (.str fn) →
      lookupA "django_file_id" o = some (.num n) →
      n.asU64 = some u →
      getCdeValue (.obj o) = .ok (some (.file fn (u % 2 ^ 32)))) ∧
    (∀ (o : List (String × JValue)) (fn : String) (n : JNum),
      lookupA "file_name" o = some (.str fn) →
      lookupA "django_file_id" o = some (.num n) →
      n.asU64 = none →
      getCdeValue (.obj o) = .error "panic: django_file_id.as_u64() failed") ∧
    (∀ o : List (String × JValue),
      getCdeValue (.obj o) = .ok none ∨
      (∃ fn id, getCdeValue (.obj o) = .ok (some (.file fn id))) ∨
      getCdeValue (.obj o) = .error "panic: django_file_id.as_u64() failed") ∧
    (∀ (o : List (String × JValue)) (c : String) (v : JValue),
      lookupA "code" o = some (.str c) →
      lookupA "value" o = some v →
      getCdeValue v = .ok none →
      parseCde (.obj o) = .error "Invalid cde value") := by
  refine ⟨fun b => rfl, rfl, fun n => rfl, rfl, ?_, rfl, ?_, ?_, ?_, ?_, ?_, ?_, ?_⟩
  · intro s hs
    show (match s with
      | "" => Except.ok (some CDEValue.emptyString)
      | s => Except.ok (some (CDEValue.str s))) = Except.ok (some (CDEValue.str s))
    split <;> simp_all
  · intro ss hss
    have hne : ¬ ss.toFinset = (∅ : Finset String) := by
      simpa [List.toFinset_eq_empty_iff] using hss
    rw [getCdeValue_arr, mapExcept_str_ok]
    show (if ss.toFinset = (∅ : Finset String) then
        (pure (some CDEValue.emptyRange) : Except String (Option CDEValue))
      else pure (some (CDEValue.range ss.toFinset))) = _
    rw [if_neg hne]
    rfl
  · have h1 : ¬ ([""] : List String).toFinset = (∅ : Finset String) := by decide
    rw [show (([JValue.str ""] : List JValue) = (([""] : List String).map JValue.str)) from rfl,
      getCdeValue_arr, mapExcept_str_ok]
    simp [h1]
    rfl
  · intro a ha
    rw [getCdeValue_arr, mapExcept_str_err "Invalid range cde value" a ha]
    rfl
  · intro o fn n u h1 h2 h3
    rw [getCdeValue_obj]
    simp only [h1, h2, h3]
  · intro o fn n h1 h2 h3
    rw [getCdeValue_obj]
    simp only [h1, h2, h3]
  · intro o
    rw [getCdeValue_obj]
    rcases hf : lookupA "file_name" o with _ | vf
    · left; rfl
    · cases vf
      case str fn =>
        rcases hd : lookupA "django_file_id" o with _ | vd
        · rcases hg : lookupA "gridfs_file_id" o with _ | vg
          · left; rfl
          · cases vg <;> first
              | (left; rfl)
              | (right; left; exact ⟨fn, 0, rfl⟩)
        · cases vd
          case num n =>
            rcases hn : n.asU64 with _ | u
            · right; right; simp [hn]
            · right; left; exact ⟨fn, u % 2 ^ 32, by simp [hn]⟩
          all_goals
            rcases hg : lookupA "gridfs_file_id" o with _ | vg
            · left; rfl
            · cases vg <;> first
                | (left; rfl)
                | (right; left; exact ⟨fn, 0, rfl⟩)
      all_goals left; rfl
  · intro o c v h1 h2 h3
    simp only [parseCde, JValue.asObject, okOr, Bind.bind, Except.bind, h1, h2, h3,
      JValue.asStr]

/-- Witness for C6 at concrete inputs for each hypothesis-bearing clause. -/
theorem c6_cde_value_decoding_witness :
    (("x" : String) ≠ "" ∧ getCdeValue (.str "x") = .ok (some (.str "x"))) ∧
    ((["a"] : List String) ≠ [] ∧
      getCdeValue (.arr (["a"].map .str)) = .ok (some (.range (["a"].toFinset)))) ∧
    ((JValue.bool true).asStr = none ∧
      getCdeValue (.arr [.bool true]) = .error "Invalid range cde value") ∧
    (lookupA "file_name" [("file_name", JValue.str "f"), ("django_file_id", JValue.num (.uint 7))] =
        some (.str "f") ∧
      JNum.asU64 (.uint 7) = some 7 ∧
      getCdeValue (.obj [("file_name", .str "f"), ("django_file_id", .num (.uint 7))]) =
        .ok (some (.file "f" (7 % 2 ^ 32)))) ∧
    (JNum.asU64 (.negInt (-3)) = none ∧
      getCdeValue (.obj [("file_name", .str "f"), ("django_file_id", .num (.negInt (-3)))]) =
        .error "panic: django_file_id.as_u64() failed") ∧
    (getCdeValue (.obj []) = .ok none ∨
      (∃ fn id, getCdeValue (.obj []) = .ok (some (.file fn id))) ∨
      getCdeValue (.obj []) = .error "panic: django_file_id.as_u64() failed") ∧
    (getCdeValue (.obj []) = .ok none ∧
      parseCde (.obj [("code", .str "C"), ("value", .obj [])]) = .error "Invalid cde value") :=
  ⟨⟨by decide, c6_cde_value_decoding.2.2.2.2.1 "x" (by decide)⟩,
    ⟨by decide, c6_cde_value_decoding.2.2.2.2.2.2.1 ["a"] (by decide)⟩,
    ⟨rfl, c6_cde_value_decoding.2.2.2.2.2.2.2.2.1 [.bool true] ⟨.bool true, by simp, rfl⟩⟩,
    ⟨rfl, rfl, c6_cde_value_decoding.2.2.2.2.2.2.2.2.2.1
      [("file_name", .str "f"), ("django_file_id", .num (.uint 7))] "f" (.uint 7) 7 rfl rfl rfl⟩,
    ⟨rfl, c6_cde_value_decoding.2.2.2.2.2.2.2.2.2.2.1
      [("file_name", .str "f"), ("django_file_id", .num (.negInt (-3)))] "f" (.negInt (-3))
      rfl rfl rfl⟩,
    c6_cde_value_decoding.2.2.2.2.2.2.2.2.2.2.2.1 [],
    ⟨rfl, c6_cde_value_decoding.2.2.2.2.2.2.2.2.2.2.2.2
      [("code", .str "C"), ("value", .obj [])] "C" (.obj []) rfl rfl rfl⟩⟩

/-! ## Assembler and slice-invariant lemmas -/

theorem lookupA_eq_none {κ α : Type} [DecidableEq κ] {k : κ} {m : List (κ × α)} :
    lookupA k m = none ↔ k ∉ keysA m := by
  induction m with
  | nil => simp [lookupA, keysA]
  | cons kv rest ih =>
    rcases kv with ⟨k', v⟩
    by_cases hk : k = k' <;> simp [lookupA, keysA, hk, ih]

theorem insertA_append {κ α : Type} [DecidableEq κ] {k : κ} {m : List (κ × α)} (v : α)
    (h : lookupA k m = none) : insertA k v m = m ++ [(k, v)] := by
  induction m with
  | nil => rfl
  | cons kv rest ih =>
    rcases kv with ⟨k', v'⟩
    rw [lookupA] at h
    by_cases hk : k = k'
    · rw [if_pos hk] at h
      cases h
    · rw [if_neg hk] at h
      simp [insertA, hk, ih h]

/-- What a true `can_add` means: the fingerprint key is unused and the
record's patient matches the slice's. -/
theorem canAdd_spec {s : PatientSlice} {d : ClinicalDatum} (h : s.canAdd d = true) :
    lookupA d.protoContext s.clinical_data = none ∧ d.patient = s.patient := by
  simp only [PatientSlice.canAdd, Bool.and_eq_true, Option.isNone_iff_eq_none,
    beq_iff_eq] at h
  exact h

theorem sliceLoop_records (l : List ClinicalDatum) :
    ∀ s : PatientSlice, (sliceLoop s l).1.records ++ (sliceLoop s l).2 = s.records ++ l := by
  induction l with
  | nil => intro s; simp [sliceLoop]
  | cons cd rest ih =>
    intro s
    rw [sliceLoop]
    cases hc : s.canAdd cd
    · simp [PatientSlice.records]
    · have hrec : (s.add cd).records = s.records ++ [cd] := by
        obtain ⟨hlk, _⟩ := canAdd_spec hc
        simp [PatientSlice.add, PatientSlice.records, insertA_append _ hlk]
      simp only []
      rw [ih (s.add cd), hrec]
      simp

theorem sliceLoop_rest_length (l : List ClinicalDatum) :
    ∀ s : PatientSlice, (sliceLoop s l).2.length ≤ l.length := by
  induction l with
  | nil => intro s; simp [sliceLoop]
  | cons cd rest ih =>
    intro s
    rw [sliceLoop]
    cases hc : s.canAdd cd
    · simp
    · simp only []
      exact le_trans (ih (s.add cd)) (Nat.le_succ _)

theorem sliceLoop_patient (l : List ClinicalDatum) :
    ∀ s : PatientSlice, (sliceLoop s l).1.patient = s.patient := by
  induction l with
  | nil => intro s; rfl
  | cons cd rest ih =>
    intro s
    rw [sliceLoop]
    cases hc : s.canAdd cd
    · rfl
    · simp only []
      exact ih (s.add cd)

theorem registrySlicesFuel_flat (fuel : Nat) :
    ∀ l : List ClinicalDatum, l.length ≤ fuel →
      (registrySlicesFuel fuel l).flatMap PatientSlice.records = l := by
  induction fuel with
  | zero =>
    intro l hl
    rw [Nat.le_zero] at hl
    rw [List.length_eq_zero] at hl
    subst hl
    rfl
  | succ fuel ih =>
    intro l hl
    cases l with
    | nil => rfl
    | cons cd rest =>
      show ((sliceLoop ((PatientSlice.fromPatient cd.patient).add cd) rest).1 ::
          registrySlicesFuel fuel
            (sliceLoop ((PatientSlice.fromPatient cd.patient).add cd) rest).2).flatMap
          PatientSlice.records = cd :: rest
      have hrest : rest.length ≤ fuel := by
        simp only [List.length_cons] at hl
        omega
      rw [List.flatMap_cons,
        ih _ (le_trans (sliceLoop_rest_length rest _) hrest)]
      have hsl := sliceLoop_records rest ((PatientSlice.fromPatient cd.patient).add cd)
      rwa [show ((PatientSlice.fromPatient cd.patient).add cd).records = [cd] from rfl] at hsl

/-! ## Reader lemmas -/

theorem bufSize_append (a b : List String) : bufSize (a ++ b) = bufSize a + bufSize b := by
  simp [bufSize]

theorem readPeak_ge (lines : List String) : ∀ buf, bufSize buf ≤ readPeak buf lines := by
  induction lines with
  | nil => intro buf; exact Nat.le_refl _
  | cons line rest ih =>
    intro buf
    rw [readPeak]
    split_ifs with h1 h2 h3
    · exact le_max_left _ _
    · exact Nat.le_refl _
    · exact le_trans (by rw [bufSize_append]; exact Nat.le_add_right _ _) (le_max_left _ _)
    · exact le_trans (by rw [bufSize_append]; exact Nat.le_add_right _ _) (le_max_left _ _)

theorem readPeak_body :
    ∀ elem : List String, (∀ l ∈ elem, bodyLine l) →
      ∀ (buf rest : List String), readPeak buf (elem ++ rest) = readPeak (buf ++ elem) rest := by
  intro elem
  induction elem with
  | nil => intro _ buf rest; simp
  | cons x xs ih =>
    intro h buf rest
    obtain ⟨hx1, hx2, hx3, hx4⟩ := h x (List.mem_cons_self x xs)
    rw [List.cons_append, readPeak, if_neg hx1, if_neg hx2, if_neg (not_or.mpr ⟨hx3, hx4⟩)]
    have habs : bufSize (buf ++ [x]) ≤ readPeak (buf ++ [x]) (xs ++ rest) :=
      readPeak_ge _ _
    rw [Nat.max_eq_right habs,
      ih (fun l hl => h l (List.mem_cons_of_mem x hl)) (buf ++ [x]) rest]
    rw [← List.append_cons]

/-- Witness for C10 at a concrete gridfs-only object and concrete files. -/
theorem c10_gridfs_decodes_to_zero_id_witness :
    getCdeValue (.obj [("file_name", .str "scan.pdf"), ("gridfs_file_id", .str "abc123")]) =
      .ok (some (.file "scan.pdf" 0)) ∧
    CDE.diff ⟨"f", .file "scan.pdf" 0⟩ ⟨"f", .file "scan.pdf" 0⟩ = none ∧
    CDE.diff ⟨"f", .file "scan.pdf" 0⟩ ⟨"f", .file "scan.pdf" 9⟩ =
      some [⟨"f", .equality (.file "scan.pdf" 0) (.file "scan.pdf" 9)⟩] :=
  ⟨c10_gridfs_decodes_to_zero_id.1 [("file_name", .str "scan.pdf"), ("gridfs_file_id", .str "abc123")]
      "scan.pdf" "abc123" (by rfl) (by rfl)
      (fun n hn => by simp [lookupA] at hn),
    c10_gridfs_decodes_to_zero_id.2.1 "f" "scan.pdf",
    c10_gridfs_decodes_to_zero_id.2.2 "f" "scan.pdf" 9 (by decide)⟩

/-- C2: the slice assembler conserves records: the slices yielded over any
finite record sequence concatenate (in order) back to the input — every
consumed record lands in exactly one yielded slice and no record or
trailing slice is dropped; moreover on a nonempty input `next` yields a
slice opened for the first record's patient whose stored records plus the
unconsumed remainder are exactly the input. -/
theorem c2_assembler_conserves_records :
    (∀ l : List ClinicalDatum, (registrySlices l).flatMap PatientSlice.records = l) ∧
    registryNext ([] : List ClinicalDatum) = none ∧
    (∀ (cd : ClinicalDatum) (rest : List ClinicalDatum),
      ∃ s rest', registryNext (cd :: rest) = some (s, rest') ∧
        s.patient = cd.patient ∧ s.records ++ rest' = cd :: rest) := by
  refine ⟨fun l => registrySlicesFuel_flat l.length l (Nat.le_refl _), rfl, ?_⟩
  intro cd rest
  refine ⟨_, _, rfl, ?_, ?_⟩
  · exact sliceLoop_patient rest _
  · have hsl := sliceLoop_records rest ((PatientSlice.fromPatient cd.patient).add cd)
    rwa [show ((PatientSlice.fromPatient cd.patient).add cd).records = [cd] from rfl] at hsl

/-- C8: every slice built by `PatientSlice::from` and grown only through
`add` calls guarded by a true `can_add` keys each stored record by its own
fingerprint, stores only records of the slice's patient, keeps the
fingerprint keys duplicate-free, and each guarded insertion appends a new
entry — it never overwrites or merges an existing one. -/
theorem c8_slice_invariant (s : PatientSlice) (hs : s.Reachable) :
    ((∀ kv ∈ s.clinical_data, kv.1 = kv.2.protoContext ∧ kv.2.patient = s.patient) ∧
      (keysA s.clinical_data).Nodup) ∧
    (∀ d : ClinicalDatum, s.canAdd d = true →
      (s.add d).clinical_data = s.clinical_data ++ [(d.protoContext, d)]) := by
  constructor
  · induction hs with
    | base p =>
      exact ⟨fun kv hkv => absurd hkv (List.not_mem_nil kv), List.nodup_nil⟩
    | step hr hc ih =>
      rename_i s' d
      obtain ⟨hlk, hpat⟩ := canAdd_spec hc
      have hdata : (s'.add d).clinical_data = s'.clinical_data ++ [(d.protoContext, d)] := by
        simp [PatientSlice.add, insertA_append _ hlk]
      constructor
      · intro kv hkv
        rw [hdata] at hkv
        rcases List.mem_append.mp hkv with h | h
        · exact ih.1 kv h
        · rw [List.mem_singleton.mp h]
          exact ⟨rfl, hpat⟩
      · rw [show keysA (s'.add d).clinical_data =
            keysA s'.clinical_data ++ [d.protoContext] by rw [hdata]; simp [keysA]]
        rw [List.nodup_append]
        exact ⟨ih.2, List.nodup_singleton _,
          fun a ha hb => (lookupA_eq_none.mp hlk) (List.mem_singleton.mp hb ▸ ha)⟩
  · intro d hd
    obtain ⟨hlk, _⟩ := canAdd_spec hd
    simp [PatientSlice.add, insertA_append _ hlk]

/-- Witness for C8: a concrete slice built by the protocol. -/
theorem c8_slice_invariant_witness :
    PatientSlice.Reachable sliceW ∧
    (((∀ kv ∈ sliceW.clinical_data,
        kv.1 = kv.2.protoContext ∧ kv.2.patient = sliceW.patient) ∧
      (keysA sliceW.clinical_data).Nodup) ∧
    (∀ d : ClinicalDatum, sliceW.canAdd d = true →
      (sliceW.add d).clinical_data = sliceW.clinical_data ++ [(d.protoContext, d)])) :=
  have hr : PatientSlice.Reachable sliceW :=
    PatientSlice.Reachable.step (PatientSlice.Reachable.base 3) (by decide)
  ⟨hr, c8_slice_invariant sliceW hr⟩

/-- C9: on a synthetic export array of `n ≥ 1` identical elements, the
incremental reader's peak buffered size is one element's text plus the one
closing-brace line it appends — in particular it does not depend on `n`. -/
theorem c9_reader_peak_constant (elem : List String) (h : ∀ l ∈ elem, bodyLine l) :
    ∀ n : Nat, 1 ≤ n → readPeak [] (syntheticInput elem n) = bufSize elem + 1 := by
  have hone : bufSize ["\x7d"] = 1 := by decide
  have hstep : ∀ n : Nat, readPeak [] (syntheticBlocks elem (n + 1) ++ ["]"]) =
      max (bufSize elem + 1) (readPeak [] (syntheticBlocks elem n ++ ["]"])) := by
    intro n
    rw [syntheticBlocks, List.append_assoc, List.append_assoc, List.singleton_append,
      readPeak_body elem h [] ("    \x7d," :: (syntheticBlocks elem n ++ ["]"])),
      List.nil_append, readPeak, if_neg (by decide), if_neg (by decide),
      if_pos (Or.inr rfl), bufSize_append, hone]
  have hblocks : ∀ n : Nat, 1 ≤ n →
      readPeak [] (syntheticBlocks elem n ++ ["]"]) = bufSize elem + 1 := by
    intro n
    induction n with
    | zero => intro h0; cases h0
    | succ n ih =>
      intro _
      rcases Nat.eq_zero_or_pos n with rfl | hn
      · rw [hstep 0]
        have hz : readPeak [] (syntheticBlocks elem 0 ++ ["]"]) = 0 := by rfl
        rw [hz]
        exact Nat.max_eq_left (Nat.zero_le _)
      · rw [hstep n, ih hn]
        exact Nat.max_self _
  intro n hn
  rw [syntheticInput, readPeak, if_pos rfl]
  rw [hblocks n hn]
  show max (bufSize []) _ = _
  rw [show bufSize [] = 0 from rfl]
  exact Nat.zero_max _

/-- Witness for C9 on a concrete two-line element repeated three times. -/
theorem c9_reader_peak_constant_witness :
    (∀ l ∈ ["    \x7b", "        \"pk\": 1,"], bodyLine l) ∧
    readPeak [] (syntheticInput ["    \x7b", "        \"pk\": 1,"] 3) =
      bufSize ["    \x7b", "        \"pk\": 1,"] + 1 :=
  ⟨by decide, c9_reader_peak_constant ["    \x7b", "        \"pk\": 1,"] (by decide) 3
    (by decide)⟩

end Diffmig
